import Mathlib

/-!
Shallow embedding of `xla/mlir/backends/cpu/transforms/lmhlo_to_cpu_runtime.cc`:
the lowering of lmhlo / xla_cpu operations (custom call, infeed, outfeed,
partition id, replica id, all-reduce) to calls into the XLA CPU runtime, and
proofs of the specified properties of that lowering.
-/

set_option autoImplicit false

namespace LmhloToCpuRuntime

/-! ## Types and values of the embedded IR -/

/-- Element types of buffers, as far as this pass distinguishes them. -/
inductive ElemTy where
  | i8
  | i32
  | i64
  | f32
  | f64
deriving DecidableEq, Repr

/-- A memref layout: either the identity (row-major contiguous, zero offset)
or a strided layout descriptor.  Only `isIdentity` is inspected by the pass
(`ty.getLayout().isIdentity()`). -/
inductive Layout where
  | identity
  | strided (strides : List Int) (offset : Int)
deriving DecidableEq, Repr

/-- `MemRefLayoutAttrInterface::isIdentity`. -/
def Layout.isIdentity : Layout → Bool
  | .identity => true
  | .strided _ _ => false

/-- A memref type: shape, element type, layout. -/
structure MemRefTy where
  shape : List Nat
  elem : ElemTy
  layout : Layout
deriving DecidableEq, Repr

/-- `MemRefType::get(shape, elem)`: the two-argument builder, which produces
the default (identity) layout. -/
def MemRefTy.get (shape : List Nat) (elem : ElemTy) : MemRefTy :=
  ⟨shape, elem, Layout.identity⟩

/-- An IR type: a memref (buffer) type or one of the scalar types that can
occur as an operand type. -/
inductive MLIRType where
  | memref (t : MemRefTy)
  | i32
  | i64
  | f32
deriving DecidableEq, Repr

/-- `type.isa<MemRefType>()`. -/
def MLIRType.isMemRef : MLIRType → Bool
  | .memref _ => true
  | _ => false

/-- `type.cast<MemRefType>()`, made total by returning `none` where the C++
cast would assert: the failure branch of the cast. -/
def MLIRType.castMemRef : MLIRType → Option MemRefTy
  | .memref t => some t
  | _ => none

/-- An SSA value: an identity plus its static type. -/
structure Value where
  id : Nat
  type : MLIRType
deriving DecidableEq, Repr

/-! ## Attributes -/

/-- Attribute values: 32-bit integer, 64-bit integer, string, dense i32 array,
or an opaque attribute (e.g. a channel handle) that the pass copies verbatim. -/
inductive Attr where
  | i32 (v : Int)
  | i64 (v : Int)
  | str (s : String)
  | denseI32 (a : List Int)
  | opaque_ (tag : String)
deriving DecidableEq, Repr

/-- An MLIR attribute dictionary: names with attribute values, unique names. -/
abbrev AttrDict := List (String × Attr)

/-- `Operation::setAttr(name, v)`: replace the binding of `name` if present,
else append a new binding. -/
def setAttr : AttrDict → String → Attr → AttrDict
  | [], name, v => [(name, v)]
  | p :: d, name, v =>
      if p.1 = name then (name, v) :: d else p :: setAttr d name v

/-- `Operation::getAttr(name)`: the first binding of `name`, if any. -/
def getAttr : AttrDict → String → Option Attr
  | [], _ => none
  | p :: d, name => if p.1 = name then some p.2 else getAttr d name

/-! ## Function declarations and the custom-call declarations registry -/

/-- A `func::FuncOp` declaration: name, parameter types, result types. -/
structure FuncDecl where
  name : String
  inputs : List MLIRType
  outputs : List MLIRType
deriving DecidableEq, Repr

/-- Modelled from the spec: `CustomCallDeclarations::GetOrCreate` (declared in
`xla/mlir/runtime/utils/custom_calls.h`, whose definition is not part of this
excerpt).  It looks up an existing declaration under `name` in the symbol
table and, if present, returns it unconditionally; otherwise it creates a new
function declaration with the given signature and inserts it. -/
def GetOrCreate (decls : List FuncDecl) (name : String)
    (ins outs : List MLIRType) : FuncDecl × List FuncDecl :=
  match decls.find? (fun d => d.name == name) with
  | some d => (d, decls)
  | none => (⟨name, ins, outs⟩, decls ++ [⟨name, ins, outs⟩])

/-! ## Emitted instructions -/

/-- A lowered `func::CallOp`: callee name, operands, result types, attributes
(the call's own symbol attributes are left implicit). -/
structure CallInstr where
  callee : String
  operands : List Value
  results : List MLIRType
  attrs : AttrDict
deriving DecidableEq, Repr

/-- Instructions the lowering emits: `memref.alloca`, `memref.alloc`,
`memref.copy`, `func.call`.  The result value of an alloca/alloc carries its
type. -/
inductive Instr where
  | alloca (res : Value)
  | alloc (res : Value)
  | copy (src dst : Value)
  | call (c : CallInstr)
deriving DecidableEq, Repr

/-- Whether an instruction is a `memref.alloc`. -/
def Instr.isAlloc : Instr → Bool
  | .alloc _ => true
  | _ => false

/-- Whether an instruction is a `memref.copy`. -/
def Instr.isCopy : Instr → Bool
  | .copy _ _ => true
  | _ => false

/-- Whether a value is a buffer with a non-identity (strided) layout. -/
def Value.stridedBuf (v : Value) : Bool :=
  match v.type with
  | .memref ty => !ty.layout.isIdentity
  | _ => false

/-- The canonical-layout (identity) version of a buffer type:
`MemRefType::get(ty.getShape(), ty.getElementType())`.  Non-buffer types are
returned unchanged. -/
def canonicalType : MLIRType → MLIRType
  | .memref ty => .memref (MemRefTy.get ty.shape ty.elem)
  | t => t

/-- The mutable state a lowering pattern threads: the instructions at the
enclosing function's entry block (front = first instruction), the module's
function declarations, and a fresh-SSA-id counter. -/
structure FuncState where
  entry : List Instr
  decls : List FuncDecl
  fresh : Nat
deriving DecidableEq, Repr

/-! ## Generic custom-call lowering (`CustomCallOpLowering`) -/

/-- `CustomCallTargetArgMappingAttr`: declared target slot counts and the two
position-to-target-slot maps. -/
structure TargetArgMapping where
  num_args : Nat
  num_results : Nat
  args_to_target_args : List Nat
  results_to_target_results : List Nat
deriving DecidableEq, Repr

/-- `lmhlo::CustomCallOp`: arguments, output buffers, the optional target
argument mapping, and the two attributes the lowering copies. -/
structure CustomCallOp where
  args : List Value
  output : List Value
  target_arg_mapping : Option TargetArgMapping
  api_version : Attr
  call_target_name : Attr
deriving DecidableEq, Repr

/-- `op.getOperands()`: arguments followed by output buffers. -/
def CustomCallOp.getOperands (op : CustomCallOp) : List Value :=
  op.args ++ op.output

/-- The `operand_segment_sizes` attribute: the sizes of the two operand
segments (arguments, outputs). -/
def CustomCallOp.operandSegmentSizes (op : CustomCallOp) : List Int :=
  [(op.args.length : Int), (op.output.length : Int)]

/-- The loop `for (indexed : llvm::enumerate(args))
`operands[indexed.value()] = op.getArgs()[indexed.index()]`: write each source
value into the target slot given by the mapping, in mapping order. -/
def writeMappedArgs : List Value → List Nat → List Value → List Value
  | operands, t :: ts, s :: ss => writeMappedArgs (operands.set t s) ts ss
  | operands, _, _ => operands

/-- The loop `operands[num_args + indexed.value()] = op.getOutput()[...]`:
write each source output into slot `num_args + target_result_slot`. -/
def writeMappedResults (num_args : Nat) :
    List Value → List Nat → List Value → List Value
  | operands, t :: ts, s :: ss =>
      writeMappedResults num_args (operands.set (num_args + t) s) ts ss
  | operands, _, _ => operands

/-- The type of the hole placeholder: a zero-length i8 memref,
`MemRefType::get({0}, b.getI8Type())`. -/
def holeTy : MemRefTy := MemRefTy.get [0] ElemTy.i8

/-- `CustomCallOpLowering::matchAndRewrite`.  Returns the updated state and
the emitted call.  When a target argument mapping is present, a zero-length
i8 `memref.alloca` is created at the start of the parent function's entry
block and used as the hole value for every unmapped slot; otherwise all
operands are passed through and `num_results` is read from
`operand_segment_sizes`.  The call's attributes are the ones attached by
`AppendCustomCallAttrs` (modelled from the spec: the helper from
`xla/mlir/runtime/utils/custom_calls.h` is not part of this excerpt; it
attaches exactly the given named attributes to the call). -/
def lowerCustomCall (st : FuncState) (op : CustomCallOp) :
    FuncState × CallInstr :=
  let pre :
      List Instr × Nat × List Value × Int :=
    match op.target_arg_mapping with
    | some mapping =>
        let hole : Value := ⟨st.fresh, MLIRType.memref holeTy⟩
        let operands :=
          List.replicate (mapping.num_args + mapping.num_results) hole
        let operands :=
          writeMappedArgs operands mapping.args_to_target_args op.args
        let operands :=
          writeMappedResults mapping.num_args operands
            mapping.results_to_target_results op.output
        (Instr.alloca hole :: st.entry, st.fresh + 1, operands,
          (mapping.num_results : Int))
    | none =>
        (st.entry, st.fresh, op.getOperands,
          (op.operandSegmentSizes).getD 1 0)
  match pre with
  | (entry, fresh, operands, num_results) =>
    let cr := GetOrCreate st.decls "xla.cpu.custom_call"
        (operands.map (fun v => v.type)) []
    let custom_call_attrs : AttrDict :=
      [("num_results", Attr.i32 num_results),
       ("api_version", op.api_version),
       ("call_target_name", op.call_target_name)]
    (⟨entry, cr.2, fresh⟩,
     ⟨cr.1.name, operands, [], custom_call_attrs⟩)

/-- Lowering a sequence of custom-call operations inside the same enclosing
function, threading the state from one to the next. -/
def lowerCustomCalls (st : FuncState) (ops : List CustomCallOp) : FuncState :=
  ops.foldl (fun s o => (lowerCustomCall s o).1) st

/-- The number of zero-length i8 stack allocations in an entry block. -/
def countHoleAllocas (entry : List Instr) : Nat :=
  entry.countP (fun i =>
    match i with
    | Instr.alloca v => v.type == MLIRType.memref holeTy
    | _ => false)

/-! ## Infeed / outfeed lowering (`LowerXfeed`) -/

/-- `LowerXfeed`: declare (or find) the callee under `call_target` with the
operand types as parameter types and no results, and emit a call carrying all
original operands, with no results and no extra attributes. -/
def LowerXfeed (st : FuncState) (operands : List Value)
    (call_target : String) : FuncState × CallInstr :=
  let cr := GetOrCreate st.decls call_target
      (operands.map (fun v => v.type)) []
  (⟨st.entry, cr.2, st.fresh⟩, ⟨cr.1.name, operands, [], []⟩)

/-! ## Partition / replica id lowering (`IdOpLowering`) -/

/-- `IdOpLowering::matchAndRewrite`: declare the callee with no parameters and
one i32 result, and replace the op with a call with one i32 result. -/
def lowerIdOp (st : FuncState) (call_target : String) :
    FuncState × CallInstr :=
  let cr := GetOrCreate st.decls call_target [] [MLIRType.i32]
  (⟨st.entry, cr.2, st.fresh⟩, ⟨cr.1.name, [], [MLIRType.i32], []⟩)

/-! ## All-reduce lowering (`AllReduceLowering`) -/

/-- `xla_cpu::AllReduceOp`: its operands and its attribute dictionary. -/
structure AllReduceOp where
  operands : List Value
  attrs : AttrDict
deriving DecidableEq, Repr

/-- The body of the normalization loop for one operand of type `ty`: when the
layout is the identity, pass the operand and its type through; otherwise
build the default-layout type `MemRefType::get(shape, elem)`, emit
`memref.alloc` of it and a `memref.copy` from the operand into the new
buffer, and use the new buffer downstream. -/
def normalizeOperand (fresh : Nat) (v : Value) (ty : MemRefTy) :
    List Instr × Value × MemRefTy × Nat :=
  if ty.layout.isIdentity then ([], v, ty, fresh)
  else
    let default_layout_ty := MemRefTy.get ty.shape ty.elem
    let new_operand : Value := ⟨fresh, MLIRType.memref default_layout_ty⟩
    ([Instr.alloc new_operand, Instr.copy v new_operand],
     new_operand, default_layout_ty, fresh + 1)

/-- The loop `for (Value operand : op.getOperands())` of the all-reduce
lowering: cast each operand type to a memref type (`none` marks the cast's
failure branch) and normalize it.  Returns the emitted instructions, the new
operands, the new operand types and the updated fresh counter. -/
def normalizeOperands :
    Nat → List Value → Option (List Instr × List Value × List MLIRType × Nat)
  | fresh, [] => some ([], [], [], fresh)
  | fresh, v :: vs =>
    match v.type.castMemRef with
    | none => none
    | some ty =>
      let r := normalizeOperand fresh v ty
      match normalizeOperands r.2.2.2 vs with
      | none => none
      | some (instrs, nvs, ntys, f) =>
        some (r.1 ++ instrs, r.2.1 :: nvs, MLIRType.memref r.2.2.1 :: ntys, f)

/-- Outcome of `AllReduceLowering::matchAndRewrite`: the guard fails (pattern
does not match, IR untouched), a later operand's memref cast fails (the
assertion branch the guard does not rule out), or the op is lowered to the
emitted instructions followed by the call. -/
inductive AllReduceLower where
  | noMatch
  | castFail
  | ok (st : FuncState) (instrs : List Instr) (call : CallInstr)
deriving DecidableEq, Repr

/-- `AllReduceLowering::matchAndRewrite`: fail to match when the first
operand's type is not a memref type (`op.getOperandTypes().front()` on an
empty operand list is undefined behaviour in the source; it is mapped to
`castFail` here); otherwise normalize every operand, declare the callee with
the normalized operand types and no results, emit the call, set the two
default attributes and then copy every attribute of the source op onto the
call, and erase the op. -/
def lowerAllReduce (st : FuncState) (op : AllReduceOp) : AllReduceLower :=
  match op.operands.head? with
  | none => AllReduceLower.castFail
  | some v0 =>
    if !v0.type.isMemRef then AllReduceLower.noMatch
    else
      match normalizeOperands st.fresh op.operands with
      | none => AllReduceLower.castFail
      | some (instrs, new_operands, new_operand_types, fresh) =>
        let cr := GetOrCreate st.decls "xla.cpu.all_reduce"
            new_operand_types []
        let attrs := setAttr [] "use_global_device_ids" (Attr.i32 0)
        let attrs := setAttr attrs "op_id" (Attr.i64 0)
        let attrs := op.attrs.foldl (fun d p => setAttr d p.1 p.2) attrs
        AllReduceLower.ok ⟨st.entry, cr.2, fresh⟩ instrs
          ⟨cr.1.name, new_operands, [], attrs⟩

/-! ## The pass driver (`ConvertLmhloToCpuRuntimePass::runOnOperation`) -/

/-- The source operations the patterns of this pass can match. -/
inductive SrcOp where
  | customCall (op : CustomCallOp)
  | infeed (operands : List Value)
  | outfeed (operands : List Value)
  | partitionId
  | replicaId
  | allReduce (op : AllReduceOp)
deriving DecidableEq, Repr

/-- A node in a function body: a still-unlowered source operation or an
already-emitted instruction. -/
inductive BodyOp where
  | src (o : SrcOp)
  | instr (i : Instr)
deriving DecidableEq, Repr

/-- Whether some lowering pattern matches a source operation: all patterns
match unconditionally except the all-reduce one, whose guard requires the
first operand's type to be a memref type. -/
def srcMatches : SrcOp → Bool
  | SrcOp.allReduce op =>
    match op.operands.head? with
    | some v => v.type.isMemRef
    | none => true
  | _ => true

/-- The number of operations in a body that some lowering pattern matches. -/
def countMatchable (body : List BodyOp) : Nat :=
  body.countP (fun b =>
    match b with
    | BodyOp.src o => srcMatches o
    | BodyOp.instr _ => false)

/-- Outcome of one step of the greedy rewrite driver: no pattern matches
anywhere (a fixed point), the all-reduce cast assertion fired, or one
operation was rewritten. -/
inductive StepResult where
  | fixpoint
  | crash
  | next (st : FuncState) (body : List BodyOp)
deriving DecidableEq, Repr

/-- One step of `applyPatternsAndFoldGreedily` over a function body: rewrite
the first operation some pattern matches, replacing it in place with the
instructions its lowering emits. -/
def stepBody (st : FuncState) : List BodyOp → StepResult
  | [] => StepResult.fixpoint
  | BodyOp.instr i :: rest =>
    match stepBody st rest with
    | StepResult.next st2 rest2 => StepResult.next st2 (BodyOp.instr i :: rest2)
    | r => r
  | BodyOp.src o :: rest =>
    match o with
    | SrcOp.customCall op =>
      let r := lowerCustomCall st op
      StepResult.next r.1 (BodyOp.instr (Instr.call r.2) :: rest)
    | SrcOp.infeed operands =>
      let r := LowerXfeed st operands "xla.cpu.infeed"
      StepResult.next r.1 (BodyOp.instr (Instr.call r.2) :: rest)
    | SrcOp.outfeed operands =>
      let r := LowerXfeed st operands "xla.cpu.outfeed"
      StepResult.next r.1 (BodyOp.instr (Instr.call r.2) :: rest)
    | SrcOp.partitionId =>
      let r := lowerIdOp st "xla.cpu.partition_id"
      StepResult.next r.1 (BodyOp.instr (Instr.call r.2) :: rest)
    | SrcOp.replicaId =>
      let r := lowerIdOp st "xla.cpu.replica_id"
      StepResult.next r.1 (BodyOp.instr (Instr.call r.2) :: rest)
    | SrcOp.allReduce op =>
      match lowerAllReduce st op with
      | AllReduceLower.noMatch =>
        match stepBody st rest with
        | StepResult.next st2 rest2 =>
          StepResult.next st2 (BodyOp.src (SrcOp.allReduce op) :: rest2)
        | r => r
      | AllReduceLower.castFail => StepResult.crash
      | AllReduceLower.ok st2 instrs call =>
        StepResult.next st2
          (instrs.map BodyOp.instr ++ BodyOp.instr (Instr.call call) :: rest)

/-! ## Lemmas about attribute dictionaries -/

theorem getAttr_eq_none_of_not_mem (d : AttrDict) (n : String)
    (h : n ∉ d.map Prod.fst) : getAttr d n = none := by
  induction d with
  | nil => rfl
  | cons a t ih =>
    simp only [List.map_cons, List.mem_cons, not_or] at h
    rw [getAttr, if_neg (fun hh => h.1 hh.symm)]
    exact ih h.2

theorem getAttr_setAttr (d : AttrDict) (n m : String) (v : Attr) :
    getAttr (setAttr d n v) m = if n = m then some v else getAttr d m := by
  induction d with
  | nil => simp [setAttr, getAttr]
  | cons a t ih =>
    by_cases han : a.1 = n
    · rw [setAttr, if_pos han, getAttr, getAttr]
      by_cases hnm : n = m
      · simp [hnm]
      · have : ¬a.1 = m := fun hh => hnm (han ▸ hh)
        simp [hnm, this]
    · rw [setAttr, if_neg han, getAttr, getAttr, ih]
      by_cases ham : a.1 = m
      · have : ¬n = m := fun hh => han (hh ▸ ham)
        simp [ham, this]
      · simp [ham]

theorem getAttr_foldl_setAttr (l : AttrDict) (d : AttrDict) (m : String)
    (h : (l.map Prod.fst).Nodup) :
    getAttr (l.foldl (fun acc p => setAttr acc p.1 p.2) d) m =
      (getAttr l m).or (getAttr d m) := by
  induction l generalizing d with
  | nil => simp [getAttr]
  | cons a t ih =>
    simp only [List.map_cons, List.nodup_cons] at h
    rw [List.foldl_cons, ih _ h.2, getAttr, getAttr_setAttr]
    by_cases ham : a.1 = m
    · have : getAttr t m = none :=
        getAttr_eq_none_of_not_mem t m (ham ▸ h.1)
      simp [ham, this]
    · simp [ham]

/-! ## Lemmas about the mapped-operand writes -/

theorem writeMappedArgs_nil (operands : List Value) (ss : List Value) :
    writeMappedArgs operands [] ss = operands := by cases ss <;> rfl

theorem writeMappedArgs_nil_src (operands : List Value) (t : Nat)
    (ts : List Nat) : writeMappedArgs operands (t :: ts) [] = operands := rfl

theorem writeMappedArgs_cons (operands : List Value) (t : Nat) (ts : List Nat)
    (s : Value) (ss : List Value) :
    writeMappedArgs operands (t :: ts) (s :: ss) =
      writeMappedArgs (operands.set t s) ts ss := rfl

theorem writeMappedResults_nil (na : Nat) (operands : List Value)
    (ss : List Value) : writeMappedResults na operands [] ss = operands := by
  cases ss <;> rfl

theorem writeMappedResults_nil_src (na : Nat) (operands : List Value) (t : Nat)
    (ts : List Nat) : writeMappedResults na operands (t :: ts) [] = operands := rfl

theorem writeMappedResults_cons (na : Nat) (operands : List Value) (t : Nat)
    (ts : List Nat) (s : Value) (ss : List Value) :
    writeMappedResults na operands (t :: ts) (s :: ss) =
      writeMappedResults na (operands.set (na + t) s) ts ss := rfl

theorem writeMappedArgs_length (ts : List Nat) (ss : List Value)
    (operands : List Value) :
    (writeMappedArgs operands ts ss).length = operands.length := by
  induction ts generalizing ss operands with
  | nil => rw [writeMappedArgs_nil]
  | cons t ts ih =>
    cases ss with
    | nil => rw [writeMappedArgs_nil_src]
    | cons s ss => rw [writeMappedArgs_cons, ih, List.length_set]

theorem writeMappedResults_length (na : Nat) (ts : List Nat) (ss : List Value)
    (operands : List Value) :
    (writeMappedResults na operands ts ss).length = operands.length := by
  induction ts generalizing ss operands with
  | nil => rw [writeMappedResults_nil]
  | cons t ts ih =>
    cases ss with
    | nil => rw [writeMappedResults_nil_src]
    | cons s ss => rw [writeMappedResults_cons, ih, List.length_set]

theorem writeMappedArgs_not_target (ts : List Nat) :
    ∀ (ss operands : List Value) (p : Nat), p ∉ ts →
      (writeMappedArgs operands ts ss)[p]? = operands[p]? := by
  induction ts with
  | nil => intro ss operands p _; rw [writeMappedArgs_nil]
  | cons t ts ih =>
    intro ss operands p h
    cases ss with
    | nil => rw [writeMappedArgs_nil_src]
    | cons s ss =>
      simp only [List.mem_cons, not_or] at h
      rw [writeMappedArgs_cons, ih ss _ p h.2,
        List.getElem?_set_ne (fun hh => h.1 hh.symm)]

theorem writeMappedResults_not_target (na : Nat) (ts : List Nat) :
    ∀ (ss operands : List Value) (p : Nat), (∀ t ∈ ts, na + t ≠ p) →
      (writeMappedResults na operands ts ss)[p]? = operands[p]? := by
  induction ts with
  | nil => intro ss operands p _; rw [writeMappedResults_nil]
  | cons t ts ih =>
    intro ss operands p h
    cases ss with
    | nil => rw [writeMappedResults_nil_src]
    | cons s ss =>
      rw [writeMappedResults_cons, ih ss _ p (fun u hu => h u (by simp [hu])),
        List.getElem?_set_ne (h t (by simp))]

theorem writeMappedArgs_at_target (ts : List Nat) :
    ∀ (ss operands : List Value), ts.Nodup →
      ∀ (i t : Nat) (s : Value), ts[i]? = some t → ss[i]? = some s →
        t < operands.length →
        (writeMappedArgs operands ts ss)[t]? = some s := by
  induction ts with
  | nil => intro ss operands _ i t s hts _ _; simp at hts
  | cons t0 ts ih =>
    intro ss operands hnd i t s hts hss hlt
    cases ss with
    | nil => simp at hss
    | cons s0 ss =>
      simp only [List.nodup_cons] at hnd
      cases i with
      | zero =>
        simp only [List.getElem?_cons_zero, Option.some_inj] at hts hss
        subst hts; subst hss
        rw [writeMappedArgs_cons,
          writeMappedArgs_not_target ts ss _ t0 hnd.1]
        exact List.getElem?_set_eq_of_lt s0 hlt
      | succ i =>
        rw [writeMappedArgs_cons]
        exact ih ss (operands.set t0 s0) hnd.2 i t s
          (by simpa using hts) (by simpa using hss)
          (by rw [List.length_set]; exact hlt)

theorem writeMappedResults_at_target (na : Nat) (ts : List Nat) :
    ∀ (ss operands : List Value), ts.Nodup →
      ∀ (i t : Nat) (s : Value), ts[i]? = some t → ss[i]? = some s →
        na + t < operands.length →
        (writeMappedResults na operands ts ss)[na + t]? = some s := by
  induction ts with
  | nil => intro ss operands _ i t s hts _ _; simp at hts
  | cons t0 ts ih =>
    intro ss operands hnd i t s hts hss hlt
    cases ss with
    | nil => simp at hss
    | cons s0 ss =>
      simp only [List.nodup_cons] at hnd
      cases i with
      | zero =>
        simp only [List.getElem?_cons_zero, Option.some_inj] at hts hss
        subst hts; subst hss
        rw [writeMappedResults_cons,
          writeMappedResults_not_target na ts ss _ (na + t0)
            (fun u hu hh => hnd.1 (by have : u = t0 := by omega
                                      exact this ▸ hu))]
        exact List.getElem?_set_eq_of_lt s0 hlt
      | succ i =>
        rw [writeMappedResults_cons]
        exact ih ss (operands.set (na + t0) s0) hnd.2 i t s
          (by simpa using hts) (by simpa using hss)
          (by rw [List.length_set]; exact hlt)

/-! ## Lemmas about `GetOrCreate` and `lowerCustomCall` -/

theorem GetOrCreate_name (decls : List FuncDecl) (name : String)
    (ins outs : List MLIRType) :
    (GetOrCreate decls name ins outs).1.name = name := by
  unfold GetOrCreate
  cases hf : decls.find? (fun d => d.name == name) with
  | none => rfl
  | some d => simpa [beq_iff_eq] using List.find?_some hf

theorem GetOrCreate_decls_of_none (decls : List FuncDecl) (name : String)
    (ins outs : List MLIRType)
    (h : decls.find? (fun d => d.name == name) = none) :
    (GetOrCreate decls name ins outs).2 = decls ++ [⟨name, ins, outs⟩] := by
  unfold GetOrCreate
  rw [h]

theorem lowerCustomCall_entry_of_some (st : FuncState) (op : CustomCallOp)
    (m : TargetArgMapping) (hm : op.target_arg_mapping = some m) :
    (lowerCustomCall st op).1.entry =
      Instr.alloca ⟨st.fresh, MLIRType.memref holeTy⟩ :: st.entry := by
  simp [lowerCustomCall, hm]

theorem lowerCustomCall_entry_of_none (st : FuncState) (op : CustomCallOp)
    (hm : op.target_arg_mapping = none) :
    (lowerCustomCall st op).1.entry = st.entry := by
  simp [lowerCustomCall, hm]

theorem lowerCustomCall_operands_of_some (st : FuncState) (op : CustomCallOp)
    (m : TargetArgMapping) (hm : op.target_arg_mapping = some m) :
    (lowerCustomCall st op).2.operands =
      writeMappedResults m.num_args
        (writeMappedArgs
          (List.replicate (m.num_args + m.num_results)
            ⟨st.fresh, MLIRType.memref holeTy⟩)
          m.args_to_target_args op.args)
        m.results_to_target_results op.output := by
  simp [lowerCustomCall, hm]

theorem lowerCustomCall_operands_of_none (st : FuncState) (op : CustomCallOp)
    (hm : op.target_arg_mapping = none) :
    (lowerCustomCall st op).2.operands = op.args ++ op.output := by
  simp [lowerCustomCall, hm, CustomCallOp.getOperands]

theorem lowerCustomCall_results (st : FuncState) (op : CustomCallOp) :
    (lowerCustomCall st op).2.results = [] := by
  cases hm : op.target_arg_mapping <;> simp [lowerCustomCall, hm]

theorem lowerCustomCall_callee (st : FuncState) (op : CustomCallOp) :
    (lowerCustomCall st op).2.callee = "xla.cpu.custom_call" := by
  cases hm : op.target_arg_mapping <;>
    simp [lowerCustomCall, hm, GetOrCreate_name]

theorem lowerCustomCall_attrs (st : FuncState) (op : CustomCallOp) :
    (lowerCustomCall st op).2.attrs =
      [("num_results", Attr.i32 (match op.target_arg_mapping with
          | some m => (m.num_results : Int)
          | none => (op.output.length : Int))),
       ("api_version", op.api_version),
       ("call_target_name", op.call_target_name)] := by
  cases hm : op.target_arg_mapping <;>
    simp [lowerCustomCall, hm, CustomCallOp.operandSegmentSizes]

theorem countHoleAllocas_lowerCustomCall (st : FuncState) (op : CustomCallOp) :
    countHoleAllocas (lowerCustomCall st op).1.entry =
      countHoleAllocas st.entry +
        (if op.target_arg_mapping.isSome then 1 else 0) := by
  cases hm : op.target_arg_mapping with
  | none => simp [lowerCustomCall_entry_of_none st op hm, hm]
  | some m =>
    rw [lowerCustomCall_entry_of_some st op m hm]
    simp [countHoleAllocas, List.countP_cons, hm]

/-! ## Claim C1 -/

/-- C1 counterexample: lowering two generic custom calls that both carry a
target-argument mapping inside the same function leaves two zero-length i8
stack allocations at that function's entry, not exactly one — the hole
placeholder is not cached per enclosing function. -/
theorem customCall_hole_not_cached_counterexample :
    countHoleAllocas
      (lowerCustomCalls ⟨[], [], 0⟩
        [⟨[⟨0, MLIRType.memref (MemRefTy.get [4] ElemTy.f32)⟩], [],
           some ⟨2, 0, [0], []⟩, Attr.i32 2, Attr.str "cb"⟩,
         ⟨[⟨1, MLIRType.memref (MemRefTy.get [4] ElemTy.f32)⟩], [],
           some ⟨2, 0, [0], []⟩, Attr.i32 2, Attr.str "cb"⟩]).entry ≠ 1 := by
  decide

/-- C1 (amended): lowering a sequence of generic custom calls inside the same
enclosing function creates exactly one zero-length i8 stack allocation at the
function's entry per lowered custom call that carries a target-argument
mapping (the hole is reused for all holes of that one call, but is not cached
across the custom calls of the function). -/
theorem customCall_one_hole_alloca_per_mapped_op (st : FuncState)
    (ops : List CustomCallOp) :
    countHoleAllocas (lowerCustomCalls st ops).entry =
      countHoleAllocas st.entry +
        ops.countP (fun o => o.target_arg_mapping.isSome) := by
  induction ops generalizing st with
  | nil => simp [lowerCustomCalls]
  | cons o t ih =>
    have hstep : lowerCustomCalls st (o :: t) =
        lowerCustomCalls (lowerCustomCall st o).1 t := by
      simp [lowerCustomCalls]
    rw [hstep, ih, countHoleAllocas_lowerCustomCall, List.countP_cons]
    cases hm : o.target_arg_mapping with
    | none => simp [hm]
    | some m => simp [hm]; omega

/-! ## Claims C2 and C10 -/

theorem mem_of_getElem_opt {α : Type} (l : List α) (i : Nat) (a : α)
    (h : l[i]? = some a) : a ∈ l := by
  obtain ⟨hlt, rfl⟩ := List.getElem?_eq_some.mp h
  exact List.getElem_mem hlt

theorem lowerCustomCall_hole_slots (st : FuncState) (op : CustomCallOp)
    (m : TargetArgMapping) (hm : op.target_arg_mapping = some m) :
    ∀ p : Nat, p < m.num_args + m.num_results →
      p ∉ m.args_to_target_args →
      (∀ t ∈ m.results_to_target_results, m.num_args + t ≠ p) →
      (lowerCustomCall st op).2.operands[p]? =
        some ⟨st.fresh, MLIRType.memref holeTy⟩ := by
  intro p hp hpa hpr
  rw [lowerCustomCall_operands_of_some st op m hm,
    writeMappedResults_not_target _ _ _ _ _ hpr,
    writeMappedArgs_not_target _ _ _ _ hpa]
  simp [List.getElem?_replicate, hp]

/-- C2: for a generic custom call with a target-argument mapping, the lowering
builds an operand list of length `num_args + num_results`, writes source
argument `i` into the slot given by the mapping's argument function, writes
source result `j` into slot `num_args + target_result_slot`, fills every
uncovered slot with the hole value, and the emitted call has no declared
results. -/
theorem customCall_mapping_operand_assembly (st : FuncState)
    (op : CustomCallOp) (m : TargetArgMapping)
    (hm : op.target_arg_mapping = some m)
    (hbound_a : ∀ t ∈ m.args_to_target_args, t < m.num_args)
    (hbound_r : ∀ t ∈ m.results_to_target_results, t < m.num_results)
    (hnd_a : m.args_to_target_args.Nodup)
    (hnd_r : m.results_to_target_results.Nodup) :
    (lowerCustomCall st op).2.operands.length = m.num_args + m.num_results ∧
    (lowerCustomCall st op).2.results = [] ∧
    (∀ (i t : Nat) (s : Value), m.args_to_target_args[i]? = some t →
        op.args[i]? = some s →
        (lowerCustomCall st op).2.operands[t]? = some s) ∧
    (∀ (j t : Nat) (s : Value),
        m.results_to_target_results[j]? = some t →
        op.output[j]? = some s →
        (lowerCustomCall st op).2.operands[m.num_args + t]? = some s) ∧
    (∀ p : Nat, p < m.num_args + m.num_results →
        p ∉ m.args_to_target_args →
        (∀ t ∈ m.results_to_target_results, m.num_args + t ≠ p) →
        (lowerCustomCall st op).2.operands[p]? =
          some ⟨st.fresh, MLIRType.memref holeTy⟩) := by
  refine ⟨?_, lowerCustomCall_results st op, ?_, ?_,
    lowerCustomCall_hole_slots st op m hm⟩
  · rw [lowerCustomCall_operands_of_some st op m hm,
      writeMappedResults_length, writeMappedArgs_length,
      List.length_replicate]
  · intro i t s hts hs
    have htm : t ∈ m.args_to_target_args := mem_of_getElem_opt _ i t hts
    have htn : t < m.num_args := hbound_a t htm
    rw [lowerCustomCall_operands_of_some st op m hm,
      writeMappedResults_not_target _ _ _ _ _
        (fun u _ hh => by omega)]
    exact writeMappedArgs_at_target _ _ _ hnd_a i t s hts hs
      (by rw [List.length_replicate]; omega)
  · intro j t s hts hs
    have htm : t ∈ m.results_to_target_results := mem_of_getElem_opt _ j t hts
    have htn : t < m.num_results := hbound_r t htm
    rw [lowerCustomCall_operands_of_some st op m hm]
    exact writeMappedResults_at_target _ _ _ _ hnd_r j t s hts hs
      (by rw [writeMappedArgs_length, List.length_replicate]; omega)

/-- C2 witness: the mapping `{0 → 2, 1 → 0}` over 3 target argument slots and
no results yields an operand list of length 3 with slot 1 the hole and slots
2 and 0 the two mapped source arguments, and no declared results. -/
theorem customCall_mapping_operand_assembly_witness :
    (lowerCustomCall ⟨[], [], 0⟩
      ⟨[⟨1, MLIRType.memref (MemRefTy.get [4] ElemTy.f32)⟩,
        ⟨2, MLIRType.memref (MemRefTy.get [8] ElemTy.f32)⟩], [],
       some ⟨3, 0, [2, 0], []⟩, Attr.i32 2,
       Attr.str "cb"⟩).2.operands.length = 3 ∧
    (lowerCustomCall ⟨[], [], 0⟩
      ⟨[⟨1, MLIRType.memref (MemRefTy.get [4] ElemTy.f32)⟩,
        ⟨2, MLIRType.memref (MemRefTy.get [8] ElemTy.f32)⟩], [],
       some ⟨3, 0, [2, 0], []⟩, Attr.i32 2, Attr.str "cb"⟩).2.results = [] ∧
    (lowerCustomCall ⟨[], [], 0⟩
      ⟨[⟨1, MLIRType.memref (MemRefTy.get [4] ElemTy.f32)⟩,
        ⟨2, MLIRType.memref (MemRefTy.get [8] ElemTy.f32)⟩], [],
       some ⟨3, 0, [2, 0], []⟩, Attr.i32 2, Attr.str "cb"⟩).2.operands[2]? =
      some ⟨1, MLIRType.memref (MemRefTy.get [4] ElemTy.f32)⟩ ∧
    (lowerCustomCall ⟨[], [], 0⟩
      ⟨[⟨1, MLIRType.memref (MemRefTy.get [4] ElemTy.f32)⟩,
        ⟨2, MLIRType.memref (MemRefTy.get [8] ElemTy.f32)⟩], [],
       some ⟨3, 0, [2, 0], []⟩, Attr.i32 2, Attr.str "cb"⟩).2.operands[0]? =
      some ⟨2, MLIRType.memref (MemRefTy.get [8] ElemTy.f32)⟩ ∧
    (lowerCustomCall ⟨[], [], 0⟩
      ⟨[⟨1, MLIRType.memref (MemRefTy.get [4] ElemTy.f32)⟩,
        ⟨2, MLIRType.memref (MemRefTy.get [8] ElemTy.f32)⟩], [],
       some ⟨3, 0, [2, 0], []⟩, Attr.i32 2, Attr.str "cb"⟩).2.operands[1]? =
      some ⟨0, MLIRType.memref holeTy⟩ := by
  have h := customCall_mapping_operand_assembly ⟨[], [], 0⟩
    ⟨[⟨1, MLIRType.memref (MemRefTy.get [4] ElemTy.f32)⟩,
      ⟨2, MLIRType.memref (MemRefTy.get [8] ElemTy.f32)⟩], [],
     some ⟨3, 0, [2, 0], []⟩, Attr.i32 2, Attr.str "cb"⟩
    ⟨3, 0, [2, 0], []⟩ rfl (by decide) (by decide) (by decide) (by decide)
  exact ⟨h.1, h.2.1,
    h.2.2.1 0 2 _ rfl rfl,
    h.2.2.1 1 0 _ rfl rfl,
    h.2.2.2.2 1 (by decide) (by decide) (by decide)⟩

/-- C10: whenever a generic custom call carries a target-argument mapping, the
zero-length hole buffer is stack-allocated at the enclosing function's entry
unconditionally — even when the mapping covers every target slot — and every
slot the mapping leaves unfilled holds that one hole value. -/
theorem customCall_hole_alloca_unconditional (st : FuncState)
    (op : CustomCallOp) (m : TargetArgMapping)
    (hm : op.target_arg_mapping = some m) :
    (lowerCustomCall st op).1.entry =
      Instr.alloca ⟨st.fresh, MLIRType.memref holeTy⟩ :: st.entry ∧
    (∀ p : Nat, p < m.num_args + m.num_results →
        p ∉ m.args_to_target_args →
        (∀ t ∈ m.results_to_target_results, m.num_args + t ≠ p) →
        (lowerCustomCall st op).2.operands[p]? =
          some ⟨st.fresh, MLIRType.memref holeTy⟩) :=
  ⟨lowerCustomCall_entry_of_some st op m hm,
   lowerCustomCall_hole_slots st op m hm⟩

/-- C10 witness: a custom call whose mapping covers every target slot
(`{0 → 0}` over 1 argument slot, no results) still allocates the hole buffer
at the function's entry. -/
theorem customCall_hole_alloca_unconditional_witness :
    (lowerCustomCall ⟨[], [], 5⟩
      ⟨[⟨0, MLIRType.memref (MemRefTy.get [4] ElemTy.f32)⟩], [],
       some ⟨1, 0, [0], []⟩, Attr.i32 1, Attr.str "cb"⟩).1.entry =
      [Instr.alloca ⟨5, MLIRType.memref holeTy⟩] :=
  (customCall_hole_alloca_unconditional ⟨[], [], 5⟩
    ⟨[⟨0, MLIRType.memref (MemRefTy.get [4] ElemTy.f32)⟩], [],
     some ⟨1, 0, [0], []⟩, Attr.i32 1, Attr.str "cb"⟩
    ⟨1, 0, [0], []⟩ rfl).1

/-! ## Claim C6 -/

/-- C6: the call emitted for a generic custom call goes to
`xla.cpu.custom_call` and carries exactly the attributes `num_results` (a
32-bit integer: the mapping's declared result slot count when a mapping is
present, else the result count from the operand segment encoding),
`api_version` and `call_target_name`, the latter two copied from the source
operation; with no mapping all source operands are passed directly, in
original order. -/
theorem customCall_attrs_exact (st : FuncState) (op : CustomCallOp) :
    (lowerCustomCall st op).2.attrs =
      [("num_results", Attr.i32 (match op.target_arg_mapping with
          | some m => (m.num_results : Int)
          | none => (op.output.length : Int))),
       ("api_version", op.api_version),
       ("call_target_name", op.call_target_name)] ∧
    (lowerCustomCall st op).2.callee = "xla.cpu.custom_call" ∧
    (op.target_arg_mapping = none →
      (lowerCustomCall st op).2.operands = op.args ++ op.output) :=
  ⟨lowerCustomCall_attrs st op, lowerCustomCall_callee st op,
   fun hm => lowerCustomCall_operands_of_none st op hm⟩

/-- C6 witness: a custom call with one argument, one output buffer and no
mapping is lowered to a call with attributes `num_results = 1`,
`api_version`, `call_target_name`, and all operands passed in order. -/
theorem customCall_attrs_exact_witness :
    (lowerCustomCall ⟨[], [], 0⟩
      ⟨[⟨0, MLIRType.memref (MemRefTy.get [2] ElemTy.f32)⟩],
       [⟨1, MLIRType.memref (MemRefTy.get [2] ElemTy.f32)⟩],
       none, Attr.i32 1, Attr.str "tgt"⟩).2.attrs =
      [("num_results", Attr.i32 1),
       ("api_version", Attr.i32 1),
       ("call_target_name", Attr.str "tgt")] ∧
    (lowerCustomCall ⟨[], [], 0⟩
      ⟨[⟨0, MLIRType.memref (MemRefTy.get [2] ElemTy.f32)⟩],
       [⟨1, MLIRType.memref (MemRefTy.get [2] ElemTy.f32)⟩],
       none, Attr.i32 1, Attr.str "tgt"⟩).2.operands =
      [⟨0, MLIRType.memref (MemRefTy.get [2] ElemTy.f32)⟩,
       ⟨1, MLIRType.memref (MemRefTy.get [2] ElemTy.f32)⟩] :=
  ⟨(customCall_attrs_exact ⟨[], [], 0⟩
      ⟨[⟨0, MLIRType.memref (MemRefTy.get [2] ElemTy.f32)⟩],
       [⟨1, MLIRType.memref (MemRefTy.get [2] ElemTy.f32)⟩],
       none, Attr.i32 1, Attr.str "tgt"⟩).1,
   (customCall_attrs_exact ⟨[], [], 0⟩
      ⟨[⟨0, MLIRType.memref (MemRefTy.get [2] ElemTy.f32)⟩],
       [⟨1, MLIRType.memref (MemRefTy.get [2] ElemTy.f32)⟩],
       none, Attr.i32 1, Attr.str "tgt"⟩).2.2 rfl⟩

/-! ## Claim C7 -/

/-- C7: an infeed (resp. outfeed) operation is replaced by a single call to a
declaration named exactly `xla.cpu.infeed` (resp. `xla.cpu.outfeed`) whose
parameter types equal the operand types, with all operands passed through
unchanged in original order, no results and no extra attributes; the source
operation is no longer in the body afterwards. -/
theorem xfeed_lowering (st : FuncState) (ops : List Value)
    (rest : List BodyOp)
    (hin : st.decls.find? (fun d => d.name == "xla.cpu.infeed") = none)
    (hout : st.decls.find? (fun d => d.name == "xla.cpu.outfeed") = none) :
    stepBody st (BodyOp.src (SrcOp.infeed ops) :: rest) =
      StepResult.next
        ⟨st.entry,
         st.decls ++ [⟨"xla.cpu.infeed", ops.map (fun v => v.type), []⟩],
         st.fresh⟩
        (BodyOp.instr (Instr.call ⟨"xla.cpu.infeed", ops, [], []⟩) :: rest) ∧
    stepBody st (BodyOp.src (SrcOp.outfeed ops) :: rest) =
      StepResult.next
        ⟨st.entry,
         st.decls ++ [⟨"xla.cpu.outfeed", ops.map (fun v => v.type), []⟩],
         st.fresh⟩
        (BodyOp.instr (Instr.call ⟨"xla.cpu.outfeed", ops, [], []⟩) :: rest) := by
  constructor <;> simp [stepBody, LowerXfeed, GetOrCreate, hin, hout]

/-- C7 witness: an infeed with two buffer operands of types
`(f32[4,4], f32[8])` lowers to a call to a declaration named
`xla.cpu.infeed` with parameter types `(f32[4,4], f32[8])` and no results,
and the infeed operation itself is gone (similarly for outfeed). -/
theorem xfeed_lowering_witness :
    stepBody ⟨[], [], 0⟩
      [BodyOp.src (SrcOp.infeed
        [⟨0, MLIRType.memref (MemRefTy.get [4, 4] ElemTy.f32)⟩,
         ⟨1, MLIRType.memref (MemRefTy.get [8] ElemTy.f32)⟩])] =
      StepResult.next
        ⟨[], [⟨"xla.cpu.infeed",
               [MLIRType.memref (MemRefTy.get [4, 4] ElemTy.f32),
                MLIRType.memref (MemRefTy.get [8] ElemTy.f32)], []⟩], 0⟩
        [BodyOp.instr (Instr.call ⟨"xla.cpu.infeed",
          [⟨0, MLIRType.memref (MemRefTy.get [4, 4] ElemTy.f32)⟩,
           ⟨1, MLIRType.memref (MemRefTy.get [8] ElemTy.f32)⟩], [], []⟩)] ∧
    stepBody ⟨[], [], 0⟩
      [BodyOp.src (SrcOp.outfeed
        [⟨0, MLIRType.memref (MemRefTy.get [4, 4] ElemTy.f32)⟩,
         ⟨1, MLIRType.memref (MemRefTy.get [8] ElemTy.f32)⟩])] =
      StepResult.next
        ⟨[], [⟨"xla.cpu.outfeed",
               [MLIRType.memref (MemRefTy.get [4, 4] ElemTy.f32),
                MLIRType.memref (MemRefTy.get [8] ElemTy.f32)], []⟩], 0⟩
        [BodyOp.instr (Instr.call ⟨"xla.cpu.outfeed",
          [⟨0, MLIRType.memref (MemRefTy.get [4, 4] ElemTy.f32)⟩,
           ⟨1, MLIRType.memref (MemRefTy.get [8] ElemTy.f32)⟩], [], []⟩)] :=
  xfeed_lowering ⟨[], [], 0⟩
    [⟨0, MLIRType.memref (MemRefTy.get [4, 4] ElemTy.f32)⟩,
     ⟨1, MLIRType.memref (MemRefTy.get [8] ElemTy.f32)⟩] [] rfl rfl

/-! ## Claim C5 -/

/-- C5: an all-reduce whose first operand is not buffer-typed is not matched
by the all-reduce lowering: the operation and the rest of the IR are left
completely untouched (alone it is already a fixed point, and any progress on
a larger body comes from the rest, with this operation left in place and the
state unchanged); the non-match is not an error. -/
theorem allReduce_noMatch_guard (st : FuncState) (op : AllReduceOp)
    (v0 : Value) (h1 : op.operands.head? = some v0)
    (h2 : v0.type.isMemRef = false) :
    lowerAllReduce st op = AllReduceLower.noMatch ∧
    stepBody st [BodyOp.src (SrcOp.allReduce op)] = StepResult.fixpoint ∧
    (∀ (rest : List BodyOp) (st2 : FuncState) (body2 : List BodyOp),
        stepBody st (BodyOp.src (SrcOp.allReduce op) :: rest) =
          StepResult.next st2 body2 →
        ∃ rest2, body2 = BodyOp.src (SrcOp.allReduce op) :: rest2 ∧
          stepBody st rest = StepResult.next st2 rest2) := by
  have hnm : lowerAllReduce st op = AllReduceLower.noMatch := by
    unfold lowerAllReduce
    rw [h1]
    simp [h2]
  refine ⟨hnm, ?_, ?_⟩
  · simp [stepBody, hnm]
  · intro rest st2 body2 hstep
    rw [stepBody, hnm] at hstep
    cases hr : stepBody st rest with
    | fixpoint => rw [hr] at hstep; exact absurd hstep (by simp)
    | crash => rw [hr] at hstep; exact absurd hstep (by simp)
    | next st3 rest3 =>
      rw [hr] at hstep
      simp only [StepResult.next.injEq] at hstep
      exact ⟨rest3, by rw [← hstep.2], by rw [← hstep.1]⟩

/-- C5 witness: an all-reduce whose single operand is an i32 scalar is left
unlowered, and a body holding only it is already a fixed point. -/
theorem allReduce_noMatch_guard_witness :
    lowerAllReduce ⟨[], [], 0⟩ ⟨[⟨0, MLIRType.i32⟩], []⟩ =
      AllReduceLower.noMatch ∧
    stepBody ⟨[], [], 0⟩
      [BodyOp.src (SrcOp.allReduce ⟨[⟨0, MLIRType.i32⟩], []⟩)] =
      StepResult.fixpoint :=
  ⟨(allReduce_noMatch_guard ⟨[], [], 0⟩ ⟨[⟨0, MLIRType.i32⟩], []⟩
      ⟨0, MLIRType.i32⟩ rfl rfl).1,
   (allReduce_noMatch_guard ⟨[], [], 0⟩ ⟨[⟨0, MLIRType.i32⟩], []⟩
      ⟨0, MLIRType.i32⟩ rfl rfl).2.1⟩

/-! ## Lemmas about the all-reduce lowering -/

theorem normalizeOperand_identity (fresh : Nat) (v : Value) (ty : MemRefTy)
    (h : ty.layout.isIdentity = true) :
    normalizeOperand fresh v ty = ([], v, ty, fresh) := by
  simp [normalizeOperand, h]

theorem normalizeOperand_strided (fresh : Nat) (v : Value) (ty : MemRefTy)
    (h : ty.layout.isIdentity = false) :
    normalizeOperand fresh v ty =
      ([Instr.alloc ⟨fresh, MLIRType.memref (MemRefTy.get ty.shape ty.elem)⟩,
        Instr.copy v ⟨fresh, MLIRType.memref (MemRefTy.get ty.shape ty.elem)⟩],
       ⟨fresh, MLIRType.memref (MemRefTy.get ty.shape ty.elem)⟩,
       MemRefTy.get ty.shape ty.elem, fresh + 1) := by
  simp [normalizeOperand, h]

theorem lowerAllReduce_ok_inv (st : FuncState) (op : AllReduceOp)
    (st2 : FuncState) (instrs : List Instr) (call : CallInstr)
    (h : lowerAllReduce st op = AllReduceLower.ok st2 instrs call) :
    ∃ (nvs : List Value) (ntys : List MLIRType) (fresh2 : Nat),
      normalizeOperands st.fresh op.operands =
        some (instrs, nvs, ntys, fresh2) ∧
      call.operands = nvs ∧ call.results = [] ∧
      call.callee = "xla.cpu.all_reduce" ∧
      call.attrs = op.attrs.foldl (fun d p => setAttr d p.1 p.2)
        [("use_global_device_ids", Attr.i32 0), ("op_id", Attr.i64 0)] ∧
      st2.entry = st.entry ∧
      st2.decls = (GetOrCreate st.decls "xla.cpu.all_reduce" ntys []).2 ∧
      st2.fresh = fresh2 := by
  unfold lowerAllReduce at h
  cases hh : op.operands.head? with
  | none => simp [hh] at h
  | some v0 =>
    cases hmem : v0.type.isMemRef with
    | false => simp [hh, hmem] at h
    | true =>
      cases hn : normalizeOperands st.fresh op.operands with
      | none => simp [hh, hmem, hn] at h
      | some r =>
        obtain ⟨instrs1, nvs, ntys, fresh2⟩ := r
        simp only [hh, hmem, hn, Bool.not_true, Bool.false_eq_true,
          if_false, AllReduceLower.ok.injEq] at h
        obtain ⟨hst, hinstrs, hcall⟩ := h
        subst hinstrs
        subst hst
        subst hcall
        refine ⟨nvs, ntys, fresh2, rfl, rfl, rfl,
          GetOrCreate_name st.decls "xla.cpu.all_reduce" ntys [], ?_,
          rfl, rfl, rfl⟩
        simp [setAttr]

theorem normalizeOperands_total (vs : List Value) :
    ∀ fresh : Nat, (∀ v ∈ vs, v.type.isMemRef = true) →
      normalizeOperands fresh vs ≠ none := by
  induction vs with
  | nil => intro fresh _; simp [normalizeOperands]
  | cons v vs ih =>
    intro fresh hall
    unfold normalizeOperands
    cases hc : v.type.castMemRef with
    | none =>
      have := hall v (by simp)
      cases ht : v.type
      all_goals rw [ht] at this hc
      all_goals simp [MLIRType.isMemRef, MLIRType.castMemRef] at this hc
    | some ty =>
      cases hn : normalizeOperands (normalizeOperand fresh v ty).2.2.2 vs with
      | none =>
        exact absurd hn (ih _ (fun u hu => hall u (by simp [hu])))
      | some r =>
        obtain ⟨instrs1, nvs, ntys, f1⟩ := r
        simp [hn]

theorem normalizeOperands_spec (vs : List Value) :
    ∀ (fresh : Nat) (instrs : List Instr) (nvs : List Value)
      (ntys : List MLIRType) (f : Nat),
      normalizeOperands fresh vs = some (instrs, nvs, ntys, f) →
      nvs.length = vs.length ∧ ntys.length = vs.length ∧
      instrs.countP Instr.isAlloc = vs.countP Value.stridedBuf ∧
      instrs.countP Instr.isCopy = vs.countP Value.stridedBuf ∧
      ∀ (i : Nat) (v : Value), vs[i]? = some v →
        (v.stridedBuf = false →
          nvs[i]? = some v ∧ ntys[i]? = some v.type) ∧
        (v.stridedBuf = true → ∃ nv : Value,
          nvs[i]? = some nv ∧ nv ≠ v ∧
          nv.type = canonicalType v.type ∧
          ntys[i]? = some (canonicalType v.type) ∧
          Instr.alloc nv ∈ instrs ∧ Instr.copy v nv ∈ instrs) := by
  induction vs with
  | nil =>
    intro fresh instrs nvs ntys f h
    simp only [normalizeOperands, Option.some_inj, Prod.mk.injEq] at h
    obtain ⟨h1, h2, h3, _⟩ := h
    refine ⟨by simp [← h2], by simp [← h3], by simp [← h1],
      by simp [← h1], ?_⟩
    intro i v hv
    simp at hv
  | cons v vs ih =>
    intro fresh instrs nvs ntys f h
    unfold normalizeOperands at h
    cases hc : v.type.castMemRef with
    | none => simp [hc] at h
    | some ty0 =>
      have hvty : v.type = MLIRType.memref ty0 := by
        cases ht : v.type
        all_goals rw [ht] at hc
        all_goals simp [MLIRType.castMemRef] at hc
        rw [hc]
      cases hid : ty0.layout.isIdentity with
      | true =>
        have hsb : v.stridedBuf = false := by
          simp [Value.stridedBuf, hvty, hid]
        simp only [hc, normalizeOperand_identity fresh v ty0 hid] at h
        cases hn : normalizeOperands fresh vs with
        | none => simp [hn] at h
        | some r =>
          obtain ⟨instrs1, nvs1, ntys1, f1⟩ := r
          simp only [hn, Option.some_inj, Prod.mk.injEq,
            List.nil_append] at h
          obtain ⟨hi, hv, hty, hf⟩ := h
          subst hi
          subst hv
          subst hty
          obtain ⟨ihl, ihl2, ihca, ihcc, ihidx⟩ :=
            ih fresh instrs1 nvs1 ntys1 f1 hn
          refine ⟨by simp [ihl], by simp [ihl2],
            by simp [List.countP_cons, hsb, ihca],
            by simp [List.countP_cons, hsb, ihcc], ?_⟩
          intro i u hu
          cases i with
          | zero =>
            simp only [List.getElem?_cons_zero, Option.some_inj] at hu
            subst hu
            refine ⟨fun _ => ⟨by simp, by simp [hvty]⟩, fun hsbu => ?_⟩
            rw [hsb] at hsbu
            cases hsbu
          | succ i =>
            simp only [List.getElem?_cons_succ] at hu
            have hx := ihidx i u hu
            refine ⟨fun hsu => ?_, fun hsu => ?_⟩
            · obtain ⟨ha, hb⟩ := hx.1 hsu
              exact ⟨by simpa using ha, by simpa using hb⟩
            · obtain ⟨nv, ha, hb, hcnv, hd, he, hf2⟩ := hx.2 hsu
              exact ⟨nv, by simpa using ha, hb, hcnv, by simpa using hd,
                by simp [he], by simp [hf2]⟩
      | false =>
        have hsb : v.stridedBuf = true := by
          simp [Value.stridedBuf, hvty, hid]
        simp only [hc, normalizeOperand_strided fresh v ty0 hid] at h
        cases hn : normalizeOperands (fresh + 1) vs with
        | none => simp [hn] at h
        | some r =>
          obtain ⟨instrs1, nvs1, ntys1, f1⟩ := r
          simp only [hn, Option.some_inj, Prod.mk.injEq,
            List.cons_append, List.nil_append] at h
          obtain ⟨hi, hv, hty, hf⟩ := h
          subst hi
          subst hv
          subst hty
          obtain ⟨ihl, ihl2, ihca, ihcc, ihidx⟩ :=
            ih (fresh + 1) instrs1 nvs1 ntys1 f1 hn
          have hcanon : canonicalType v.type =
              MLIRType.memref (MemRefTy.get ty0.shape ty0.elem) := by
            rw [hvty]; rfl
          have hnvne : (⟨fresh, MLIRType.memref
              (MemRefTy.get ty0.shape ty0.elem)⟩ : Value) ≠ v := by
            intro he
            rw [← he] at hvty
            have h2 : MemRefTy.get ty0.shape ty0.elem = ty0 :=
              (MLIRType.memref.injEq _ _).mp hvty
            have h3 : Layout.identity = ty0.layout :=
              congrArg MemRefTy.layout h2
            rw [← h3] at hid
            cases hid
          refine ⟨by simp [ihl], by simp [ihl2],
            by simp [List.countP_cons, hsb, ihca, Instr.isAlloc,
              Instr.isCopy, Nat.add_comm],
            by simp [List.countP_cons, hsb, ihcc, Instr.isAlloc,
              Instr.isCopy, Nat.add_comm], ?_⟩
          intro i u hu
          cases i with
          | zero =>
            simp only [List.getElem?_cons_zero, Option.some_inj] at hu
            subst hu
            refine ⟨fun hsbu => ?_, fun _ => ?_⟩
            · rw [hsb] at hsbu
              cases hsbu
            · exact ⟨⟨fresh, MLIRType.memref
                  (MemRefTy.get ty0.shape ty0.elem)⟩,
                by simp, hnvne, by rw [hcanon], by simp [hcanon],
                by simp, by simp⟩
          | succ i =>
            simp only [List.getElem?_cons_succ] at hu
            have hx := ihidx i u hu
            refine ⟨fun hsu => ?_, fun hsu => ?_⟩
            · obtain ⟨ha, hb⟩ := hx.1 hsu
              exact ⟨by simpa using ha, by simpa using hb⟩
            · obtain ⟨nv, ha, hb, hcnv, hd, he, hf2⟩ := hx.2 hsu
              exact ⟨nv, by simpa using ha, hb, hcnv, by simpa using hd,
                by simp [he], by simp [hf2]⟩

/-! ## Claim C3 -/

/-- C3: for every matched all-reduce, each operand is normalized
independently: an operand in canonical (identity) layout is passed to the
call unchanged, while any other layout yields exactly one allocation of the
canonical-layout type and one copy from the original into it, the call
references the copy instead of the original, and the callee is declared with
the canonical-layout type at that position; globally the number of
allocations and of copies each equals the number of strided operands. -/
theorem allReduce_layout_normalization (st : FuncState) (op : AllReduceOp)
    (st2 : FuncState) (instrs : List Instr) (call : CallInstr)
    (h : lowerAllReduce st op = AllReduceLower.ok st2 instrs call) :
    call.operands.length = op.operands.length ∧
    instrs.countP Instr.isAlloc = op.operands.countP Value.stridedBuf ∧
    instrs.countP Instr.isCopy = op.operands.countP Value.stridedBuf ∧
    ∃ ntys : List MLIRType,
      ntys.length = op.operands.length ∧
      (st.decls.find? (fun d => d.name == "xla.cpu.all_reduce") = none →
        st2.decls = st.decls ++ [⟨"xla.cpu.all_reduce", ntys, []⟩]) ∧
      ∀ (i : Nat) (v : Value), op.operands[i]? = some v →
        (v.stridedBuf = false →
          call.operands[i]? = some v ∧ ntys[i]? = some v.type) ∧
        (v.stridedBuf = true → ∃ nv : Value,
          call.operands[i]? = some nv ∧ nv ≠ v ∧
          nv.type = canonicalType v.type ∧
          ntys[i]? = some (canonicalType v.type) ∧
          Instr.alloc nv ∈ instrs ∧ Instr.copy v nv ∈ instrs) := by
  obtain ⟨nvs, ntys, fresh2, hn, hops, hres, hcal, hattrs, hent, hdecls, hfr⟩ :=
    lowerAllReduce_ok_inv st op st2 instrs call h
  obtain ⟨hl1, hl2, hca, hcc, hidx⟩ :=
    normalizeOperands_spec op.operands st.fresh instrs nvs ntys fresh2 hn
  refine ⟨by rw [hops, hl1], hca, hcc, ntys, hl2, ?_, ?_⟩
  · intro hfind
    rw [hdecls, GetOrCreate_decls_of_none _ _ _ _ hfind]
  · intro i v hv
    rw [hops]
    exact hidx i v hv

/-- C3 witness: a single strided f32[4] all-reduce operand produces exactly
one allocation and one copy, and the call carries one operand. -/
theorem allReduce_layout_normalization_witness :
    ([Instr.alloc ⟨0, MLIRType.memref (MemRefTy.get [4] ElemTy.f32)⟩,
      Instr.copy ⟨7, MLIRType.memref ⟨[4], ElemTy.f32, Layout.strided [2] 0⟩⟩
        ⟨0, MLIRType.memref (MemRefTy.get [4] ElemTy.f32)⟩] :
      List Instr).countP Instr.isAlloc =
      ([⟨7, MLIRType.memref ⟨[4], ElemTy.f32, Layout.strided [2] 0⟩⟩] :
        List Value).countP Value.stridedBuf ∧
    (CallInstr.mk "xla.cpu.all_reduce"
      [⟨0, MLIRType.memref (MemRefTy.get [4] ElemTy.f32)⟩] []
      [("use_global_device_ids", Attr.i32 0),
       ("op_id", Attr.i64 0)]).operands.length =
      ([⟨7, MLIRType.memref ⟨[4], ElemTy.f32, Layout.strided [2] 0⟩⟩] :
        List Value).length :=
  ⟨(allReduce_layout_normalization ⟨[], [], 0⟩
      ⟨[⟨7, MLIRType.memref ⟨[4], ElemTy.f32, Layout.strided [2] 0⟩⟩], []⟩
      ⟨[], [⟨"xla.cpu.all_reduce",
             [MLIRType.memref (MemRefTy.get [4] ElemTy.f32)], []⟩], 1⟩
      [Instr.alloc ⟨0, MLIRType.memref (MemRefTy.get [4] ElemTy.f32)⟩,
       Instr.copy ⟨7, MLIRType.memref ⟨[4], ElemTy.f32, Layout.strided [2] 0⟩⟩
         ⟨0, MLIRType.memref (MemRefTy.get [4] ElemTy.f32)⟩]
      ⟨"xla.cpu.all_reduce",
       [⟨0, MLIRType.memref (MemRefTy.get [4] ElemTy.f32)⟩], [],
       [("use_global_device_ids", Attr.i32 0), ("op_id", Attr.i64 0)]⟩
      rfl).2.1,
   (allReduce_layout_normalization ⟨[], [], 0⟩
      ⟨[⟨7, MLIRType.memref ⟨[4], ElemTy.f32, Layout.strided [2] 0⟩⟩], []⟩
      ⟨[], [⟨"xla.cpu.all_reduce",
             [MLIRType.memref (MemRefTy.get [4] ElemTy.f32)], []⟩], 1⟩
      [Instr.alloc ⟨0, MLIRType.memref (MemRefTy.get [4] ElemTy.f32)⟩,
       Instr.copy ⟨7, MLIRType.memref ⟨[4], ElemTy.f32, Layout.strided [2] 0⟩⟩
         ⟨0, MLIRType.memref (MemRefTy.get [4] ElemTy.f32)⟩]
      ⟨"xla.cpu.all_reduce",
       [⟨0, MLIRType.memref (MemRefTy.get [4] ElemTy.f32)⟩], [],
       [("use_global_device_ids", Attr.i32 0), ("op_id", Attr.i64 0)]⟩
      rfl).1⟩

/-! ## Claim C4 -/

/-- C4: every lowered all-reduce call carries `use_global_device_ids` (i32)
and `op_id` (i64), both defaulted to 0 and written before the source
attributes are copied, so a same-named source attribute overrides the
default: with no source `op_id` the call has `op_id = 0`, and with source
`op_id = 7` the call has `op_id = 7`. -/
theorem allReduce_attr_defaults (st : FuncState) (op : AllReduceOp)
    (st2 : FuncState) (instrs : List Instr) (call : CallInstr)
    (h : lowerAllReduce st op = AllReduceLower.ok st2 instrs call)
    (hnd : (op.attrs.map Prod.fst).Nodup) :
    getAttr call.attrs "use_global_device_ids" =
      (getAttr op.attrs "use_global_device_ids").or (some (Attr.i32 0)) ∧
    getAttr call.attrs "op_id" =
      (getAttr op.attrs "op_id").or (some (Attr.i64 0)) := by
  obtain ⟨nvs, ntys, fresh2, hn, hops, hres, hcal, hattrs, _⟩ :=
    lowerAllReduce_ok_inv st op st2 instrs call h
  rw [hattrs]
  constructor
  · rw [getAttr_foldl_setAttr _ _ _ hnd]
    simp [getAttr]
  · rw [getAttr_foldl_setAttr _ _ _ hnd]
    simp [getAttr]

/-- C4 witness: an all-reduce carrying `op_id = 7` lowers to a call with
`op_id = 7`, one carrying no `op_id` lowers to a call with `op_id = 0`, and
`use_global_device_ids` defaults to 0. -/
theorem allReduce_attr_defaults_witness :
    getAttr (CallInstr.mk "xla.cpu.all_reduce"
      [⟨9, MLIRType.memref (MemRefTy.get [4] ElemTy.f32)⟩] []
      [("use_global_device_ids", Attr.i32 0),
       ("op_id", Attr.i64 7)]).attrs "op_id" = some (Attr.i64 7) ∧
    getAttr (CallInstr.mk "xla.cpu.all_reduce"
      [⟨9, MLIRType.memref (MemRefTy.get [4] ElemTy.f32)⟩] []
      [("use_global_device_ids", Attr.i32 0),
       ("op_id", Attr.i64 0)]).attrs "op_id" = some (Attr.i64 0) ∧
    getAttr (CallInstr.mk "xla.cpu.all_reduce"
      [⟨9, MLIRType.memref (MemRefTy.get [4] ElemTy.f32)⟩] []
      [("use_global_device_ids", Attr.i32 0),
       ("op_id", Attr.i64 0)]).attrs "use_global_device_ids" =
      some (Attr.i32 0) :=
  ⟨(allReduce_attr_defaults ⟨[], [], 0⟩
      ⟨[⟨9, MLIRType.memref (MemRefTy.get [4] ElemTy.f32)⟩],
       [("op_id", Attr.i64 7)]⟩
      ⟨[], [⟨"xla.cpu.all_reduce",
             [MLIRType.memref (MemRefTy.get [4] ElemTy.f32)], []⟩], 0⟩
      []
      ⟨"xla.cpu.all_reduce",
       [⟨9, MLIRType.memref (MemRefTy.get [4] ElemTy.f32)⟩], [],
       [("use_global_device_ids", Attr.i32 0), ("op_id", Attr.i64 7)]⟩
      rfl (by decide)).2,
   (allReduce_attr_defaults ⟨[], [], 0⟩
      ⟨[⟨9, MLIRType.memref (MemRefTy.get [4] ElemTy.f32)⟩], []⟩
      ⟨[], [⟨"xla.cpu.all_reduce",
             [MLIRType.memref (MemRefTy.get [4] ElemTy.f32)], []⟩], 0⟩
      []
      ⟨"xla.cpu.all_reduce",
       [⟨9, MLIRType.memref (MemRefTy.get [4] ElemTy.f32)⟩], [],
       [("use_global_device_ids", Attr.i32 0), ("op_id", Attr.i64 0)]⟩
      rfl (by decide)).2,
   (allReduce_attr_defaults ⟨[], [], 0⟩
      ⟨[⟨9, MLIRType.memref (MemRefTy.get [4] ElemTy.f32)⟩], []⟩
      ⟨[], [⟨"xla.cpu.all_reduce",
             [MLIRType.memref (MemRefTy.get [4] ElemTy.f32)], []⟩], 0⟩
      []
      ⟨"xla.cpu.all_reduce",
       [⟨9, MLIRType.memref (MemRefTy.get [4] ElemTy.f32)⟩], [],
       [("use_global_device_ids", Attr.i32 0), ("op_id", Attr.i64 0)]⟩
      rfl (by decide)).1⟩

/-! ## Claim C9 -/

/-- C9: once the guard on the first operand's type passes, the all-reduce
lowering casts every operand's type to a memref type with no further check:
when all operands are buffer-typed the cast is total (the failure branch is
unreachable), but the guard alone does not establish this — there is an
operation whose first operand is a buffer and whose lowering still reaches
the cast failure branch. -/
theorem allReduce_cast_totality :
    (∀ (st : FuncState) (op : AllReduceOp), op.operands ≠ [] →
        (∀ v ∈ op.operands, v.type.isMemRef = true) →
        lowerAllReduce st op ≠ AllReduceLower.castFail) ∧
    (∃ (st : FuncState) (op : AllReduceOp) (v0 : Value),
        op.operands.head? = some v0 ∧ v0.type.isMemRef = true ∧
        lowerAllReduce st op = AllReduceLower.castFail) := by
  constructor
  · intro st op hne hall
    unfold lowerAllReduce
    cases hh : op.operands.head? with
    | none => exact absurd (List.head?_eq_none_iff.mp hh) hne
    | some v0 =>
      have hv0mem : v0 ∈ op.operands := by
        cases hop : op.operands with
        | nil => rw [hop] at hh; cases hh
        | cons a l =>
          rw [hop] at hh
          simp only [List.head?_cons, Option.some_inj] at hh
          rw [hh]
          simp
      have hmem : v0.type.isMemRef = true := hall v0 hv0mem
      cases hn : normalizeOperands st.fresh op.operands with
      | none => exact absurd hn (normalizeOperands_total op.operands st.fresh hall)
      | some r =>
        obtain ⟨instrs1, nvs, ntys, f1⟩ := r
        simp [hmem, hn]
  · exact ⟨⟨[], [], 0⟩,
      ⟨[⟨0, MLIRType.memref (MemRefTy.get [2] ElemTy.f32)⟩,
        ⟨1, MLIRType.i32⟩], []⟩,
      ⟨0, MLIRType.memref (MemRefTy.get [2] ElemTy.f32)⟩,
      rfl, rfl, by decide⟩

/-- C9 witness: an all-reduce whose two operands are both buffers does not
reach the cast failure branch. -/
theorem allReduce_cast_totality_witness :
    lowerAllReduce ⟨[], [], 0⟩
      ⟨[⟨0, MLIRType.memref (MemRefTy.get [2] ElemTy.f32)⟩,
        ⟨1, MLIRType.memref (MemRefTy.get [3] ElemTy.f64)⟩], []⟩ ≠
      AllReduceLower.castFail :=
  allReduce_cast_totality.1 ⟨[], [], 0⟩
    ⟨[⟨0, MLIRType.memref (MemRefTy.get [2] ElemTy.f32)⟩,
      ⟨1, MLIRType.memref (MemRefTy.get [3] ElemTy.f64)⟩], []⟩
    (by decide) (by decide)

/-! ## Claim C8 -/

theorem countMatchable_instr_cons (i : Instr) (body : List BodyOp) :
    countMatchable (BodyOp.instr i :: body) = countMatchable body := by
  simp [countMatchable, List.countP_cons]

theorem countMatchable_src_cons (o : SrcOp) (body : List BodyOp) :
    countMatchable (BodyOp.src o :: body) =
      countMatchable body + (if srcMatches o then 1 else 0) := by
  simp [countMatchable, List.countP_cons]

theorem countMatchable_map_instr_append (instrs : List Instr)
    (body : List BodyOp) :
    countMatchable (instrs.map BodyOp.instr ++ body) = countMatchable body := by
  induction instrs with
  | nil => simp
  | cons i t ih => simpa [countMatchable_instr_cons] using ih

theorem lowerAllReduce_noMatch_srcMatches (st : FuncState) (op : AllReduceOp)
    (h : lowerAllReduce st op = AllReduceLower.noMatch) :
    srcMatches (SrcOp.allReduce op) = false := by
  unfold lowerAllReduce at h
  cases hh : op.operands.head? with
  | none => simp [hh] at h
  | some v0 =>
    cases hmem : v0.type.isMemRef with
    | false => simp [srcMatches, hh, hmem]
    | true =>
      cases hn : normalizeOperands st.fresh op.operands with
      | none => simp [hh, hmem, hn] at h
      | some r =>
        obtain ⟨a, b, c, d⟩ := r
        simp [hh, hmem, hn] at h

theorem lowerAllReduce_ok_srcMatches (st : FuncState) (op : AllReduceOp)
    (st2 : FuncState) (instrs : List Instr) (call : CallInstr)
    (h : lowerAllReduce st op = AllReduceLower.ok st2 instrs call) :
    srcMatches (SrcOp.allReduce op) = true := by
  unfold lowerAllReduce at h
  cases hh : op.operands.head? with
  | none => simp [hh] at h
  | some v0 =>
    cases hmem : v0.type.isMemRef with
    | false => simp [hh, hmem] at h
    | true => simp [srcMatches, hh, hmem]

/-- C8: iterating the lowering rules terminates: no lowerer's rewrite
re-introduces a matchable instance of its own trigger kind, so every
successful step of the driver strictly decreases the number of matchable
operations in the body. -/
theorem stepBody_strictly_decreases (st : FuncState) (body : List BodyOp) :
    ∀ (st2 : FuncState) (body2 : List BodyOp),
      stepBody st body = StepResult.next st2 body2 →
      countMatchable body2 < countMatchable body := by
  induction body with
  | nil => intro st2 body2 h; simp [stepBody] at h
  | cons b rest ih =>
    intro st2 body2 h
    cases b with
    | instr i =>
      rw [stepBody] at h
      cases hr : stepBody st rest with
      | next st3 rest3 =>
        rw [hr] at h
        simp only [StepResult.next.injEq] at h
        obtain ⟨h1, h2⟩ := h
        rw [← h2, countMatchable_instr_cons, countMatchable_instr_cons]
        exact ih st3 rest3 hr
      | fixpoint => rw [hr] at h; simp at h
      | crash => rw [hr] at h; simp at h
    | src o =>
      cases o with
      | allReduce op =>
        rw [stepBody] at h
        cases hl : lowerAllReduce st op with
        | noMatch =>
          rw [hl] at h
          cases hr : stepBody st rest with
          | next st3 rest3 =>
            rw [hr] at h
            simp only [StepResult.next.injEq] at h
            obtain ⟨h1, h2⟩ := h
            rw [← h2, countMatchable_src_cons, countMatchable_src_cons,
              lowerAllReduce_noMatch_srcMatches st op hl]
            simpa using ih st3 rest3 hr
          | fixpoint => rw [hr] at h; simp at h
          | crash => rw [hr] at h; simp at h
        | castFail => rw [hl] at h; simp at h
        | ok st3 instrs call =>
          rw [hl] at h
          simp only [StepResult.next.injEq] at h
          obtain ⟨h1, h2⟩ := h
          rw [← h2, countMatchable_map_instr_append,
            countMatchable_instr_cons, countMatchable_src_cons,
            lowerAllReduce_ok_srcMatches st op st3 instrs call hl]
          simp
      | customCall op =>
        simp only [stepBody, StepResult.next.injEq] at h
        obtain ⟨h1, h2⟩ := h
        rw [← h2, countMatchable_instr_cons, countMatchable_src_cons]
        simp [srcMatches]
      | infeed operands =>
        simp only [stepBody, StepResult.next.injEq] at h
        obtain ⟨h1, h2⟩ := h
        rw [← h2, countMatchable_instr_cons, countMatchable_src_cons]
        simp [srcMatches]
      | outfeed operands =>
        simp only [stepBody, StepResult.next.injEq] at h
        obtain ⟨h1, h2⟩ := h
        rw [← h2, countMatchable_instr_cons, countMatchable_src_cons]
        simp [srcMatches]
      | partitionId =>
        simp only [stepBody, StepResult.next.injEq] at h
        obtain ⟨h1, h2⟩ := h
        rw [← h2, countMatchable_instr_cons, countMatchable_src_cons]
        simp [srcMatches]
      | replicaId =>
        simp only [stepBody, StepResult.next.injEq] at h
        obtain ⟨h1, h2⟩ := h
        rw [← h2, countMatchable_instr_cons, countMatchable_src_cons]
        simp [srcMatches]

/-- C8 witness: one driver step on a body holding a single partition-id query
rewrites it to a call, dropping the matchable-operation count from 1 to 0. -/
theorem stepBody_strictly_decreases_witness :
    countMatchable [BodyOp.instr (Instr.call
      ⟨"xla.cpu.partition_id", [], [MLIRType.i32], []⟩)] <
      countMatchable [BodyOp.src SrcOp.partitionId] :=
  stepBody_strictly_decreases ⟨[], [], 0⟩ [BodyOp.src SrcOp.partitionId]
    ⟨[], [⟨"xla.cpu.partition_id", [], [MLIRType.i32]⟩], 0⟩
    [BodyOp.instr (Instr.call ⟨"xla.cpu.partition_id", [], [MLIRType.i32], []⟩)]
    rfl

end LmhloToCpuRuntime
